import Mathlib

/-!
Verification of the dataset / datafile / feature core of the INFOY120
social-bot-detection repository.  The Python classes `Dataset` (dataset.py),
`Datafile` (datafile.py) and the feature catalog (feature.py) are shallowly
embedded as executable Lean definitions; external collaborators (pandas,
`datetime.strptime`, the filesystem, the random sampler) are modeled as
explicit parameters or environment functions.
-/

/-- A row of the per-dataset `users` dataframe built by
`Dataset.extract_users_from_path` (dataset.py): the `user_id` index plus the
`label` and `dataset` columns attached from the folder path. -/
structure UserRow where
  uid : Nat
  label : String
  dname : String
deriving DecidableEq

/-- A filesystem path, modeled as its `os.sep`-separated components after
`os.path.normpath` (normalization itself is done by the OS collaborator, so
paths are taken to be already in normal form). -/
abbrev DPath := List String

/-- The filesystem as seen by `Dataset.extract_users_from_path`: for a folder
path it yields the `id` column of that folder's `users.csv`, or `none` when
one of the four mandatory files is missing (`InvalidDatasetFolderError`). -/
def DsEnv : Type := DPath → Option (List Nat)

/-- `Dataset.parse_path`: a path `/.../<label>/<name>` yields the label and
dataset name (its last two components); fewer than two components raise
`InvalidDatasetFolderError`, modeled as `none`. -/
def parse_path (p : DPath) : Option (String × String) :=
  if 2 ≤ p.length then some (p.getD (p.length - 2) "", p.getD (p.length - 1) "")
  else none

/-- `Dataset.extract_users_from_path`: checks the mandatory files (folded into
the environment lookup), parses the path, and returns the users dataframe
(ids with `label` and `dataset` columns attached) plus label and name. -/
def extract_users_from_path (env : DsEnv) (p : DPath) :
    Option (List UserRow × String × String) :=
  match env p, parse_path p with
  | some ids, some (label, name) => some (ids.map (fun i => ⟨i, label, name⟩), label, name)
  | _, _ => none

/-- One step of the label accumulation in `Dataset._set_from_paths`:
`None` adopts the new label; a differing label collapses to `"mixed"`. -/
def combineLabel : Option String → String → Option String
  | none, l => some l
  | some l0, l => if l0 = l then some l0 else some "mixed"

/-- Insertion into the ordered-list model of a Python set / dict key view:
adding an already-present element is a no-op, otherwise it goes to the end. -/
def insertNew {α : Type} [DecidableEq α] (xs : List α) (x : α) : List α :=
  if x ∈ xs then xs else xs ++ [x]

/-- Python `sep.join(strings)`. -/
def joinSep (sep : String) : List String → String
  | [] => ""
  | [x] => x
  | x :: y :: xs => x ++ sep ++ joinSep sep (y :: xs)

/-- Accumulator state of the loop in `Dataset._set_from_paths`.  `names`
models the Python set `_names` as a first-insertion-ordered duplicate-free
list (CPython set iteration order is unspecified; this fixes one order);
`paths` models the insertion-ordered keys of the `_datafiles` dict. -/
structure LoadState where
  label : Option String
  names : List String
  rows : List UserRow
  paths : List DPath
deriving DecidableEq

/-- One iteration of the `for path in paths` loop in
`Dataset._set_from_paths`: load the path's users, fold its label into the
dataset label, add its name to the name set and its path to the datafile
dict.  Note the users rows are appended once per occurrence of the path in
the argument list, while the dict key is deduplicated. -/
def loadStep (env : DsEnv) (st : LoadState) (p : DPath) : Option LoadState :=
  match extract_users_from_path env p with
  | none => none
  | some (users, plabel, pname) =>
    some { label := combineLabel st.label plabel
         , names := insertNew st.names pname
         , rows := st.rows ++ users
         , paths := insertNew st.paths p }

/-- The whole loop of `Dataset._set_from_paths`. -/
def loadPaths (env : DsEnv) : LoadState → List DPath → Option LoadState
  | st, [] => some st
  | st, p :: ps =>
    match loadStep env st p with
    | none => none
    | some st' => loadPaths env st' ps

/-- The state of a Python `Dataset` object (dataset.py). -/
structure Dataset where
  label : Option String
  names : List String
  fullUsers : List UserRow
  users : List UserRow
  paths : List DPath
  undersampled : Bool
deriving DecidableEq

/-- `Dataset._set_from_paths`: rebuilds the datafile dict, full users frame
and current users frame from a path list, folding labels and names into the
existing `_label` / `_names` state, and clears the `undersampled` flag. -/
def setFromPaths (env : DsEnv) (lab : Option String) (names : List String)
    (ps : List DPath) : Option Dataset :=
  match loadPaths env ⟨lab, names, [], []⟩ ps with
  | none => none
  | some st =>
    some { label := st.label, names := st.names, fullUsers := st.rows
         , users := st.rows, paths := st.paths, undersampled := false }

/-- `Dataset.__init__(*paths_to_csv)`: fresh `None` label and empty name set,
then `_set_from_paths`. -/
def datasetMk (env : DsEnv) (ps : List DPath) : Option Dataset :=
  setFromPaths env none [] ps

/-- `Dataset.size`: number of rows of the current users frame. -/
def Dataset.size (d : Dataset) : Nat := d.users.length

/-- `Dataset.name`: the name set joined by `" U "` (ASCII `U`). -/
def Dataset.name (d : Dataset) : String := joinSep " U " d.names

/-- The current account-id index (`self._users.index`). -/
def Dataset.currentIds (d : Dataset) : List Nat := d.users.map (·.uid)

/-- The full account-id index (`self._full_users.index`). -/
def Dataset.fullIds (d : Dataset) : List Nat := d.fullUsers.map (·.uid)

/-- The `Dataset.users` setter: raises `UserOutsideDatasetError` (modeled as
`none`; being pure, the embedding leaves the caller's dataset value
untouched, matching the raise-before-mutation order in the source) when some
given row's id is outside the full index; when the given frame has as many
rows as the full frame it snaps back to the full frame and clears
`undersampled`, otherwise it installs the given rows and sets the flag. -/
def setUsers (d : Dataset) (us : List UserRow) : Option Dataset :=
  if us.all (fun u => u.uid ∈ d.fullIds) then
    if us.length = d.fullUsers.length then
      some { d with undersampled := false, users := d.fullUsers }
    else
      some { d with undersampled := true, users := us }
  else none

/-- `Dataset.reset_full_users`. -/
def reset_full_users (d : Dataset) : Dataset :=
  { d with undersampled := false, users := d.fullUsers }

/-- Contract of the random-sampling collaborator standing in for
`pandas.DataFrame.sample(n=k)`: it draws rows of the given frame, and draws
exactly `k` of them (without replacement) whenever `k` does not exceed the
frame's length. -/
def SamplerOK (sampler : Nat → List UserRow → List UserRow) : Prop :=
  ∀ n l, (∀ u ∈ sampler n l, u ∈ l) ∧ (n ≤ l.length → (sampler n l).length = n)

/-- `Dataset.undersample(num_users)`: when `num_users >= self.size` (the
CURRENT size) reset to the full frame, else sample `num_users` rows from the
FULL frame and set the flag. -/
def undersample (sampler : Nat → List UserRow → List UserRow) (d : Dataset)
    (n : Nat) : Dataset :=
  if d.size ≤ n then reset_full_users d
  else { d with users := sampler n d.fullUsers, undersampled := true }

/-- `Dataset.__add__` with a same-type operand (the `isinstance` guard
passed): save the concatenation of both operands' current users, rebuild a
fresh dataset from the combined path lists, then reapply the saved users
through the `users` setter.  `none` models a raised exception during the
rebuild. -/
def datasetAdd (env : DsEnv) (a b : Dataset) : Option Dataset :=
  match datasetMk env (a.paths ++ b.paths) with
  | none => none
  | some nd => setUsers nd (a.users ++ b.users)

/-- An arbitrary Python operand: either a `Dataset` of the same type, or any
other object. -/
inductive PyOperand where
  | ds (d : Dataset)
  | nonDataset
deriving DecidableEq

/-- `Dataset.__lt__`: `False` for a non-`Dataset` operand, else
`self.users.index.isin(other.users.index).all()`. -/
def datasetLt (a : Dataset) : PyOperand → Bool
  | .ds b => a.currentIds.all (fun i => i ∈ b.currentIds)
  | .nonDataset => false

/-- `Dataset.__gt__`: `False` for a non-`Dataset` operand, else
`other.users.index.isin(self.users.index).all()`. -/
def datasetGt (a : Dataset) : PyOperand → Bool
  | .ds b => b.currentIds.all (fun i => i ∈ a.currentIds)
  | .nonDataset => false

/-- Concrete sampler used in witnesses: take the first `n` rows. -/
def takeSampler (n : Nat) (l : List UserRow) : List UserRow := l.take n

theorem takeSampler_ok : SamplerOK takeSampler := by
  intro n l
  constructor
  · intro u hu
    exact List.mem_of_mem_take hu
  · intro h
    simp [takeSampler, List.length_take, Nat.min_eq_left h]

/-! ### Characterization of `_set_from_paths` -/

/-- The label a path contributes (second-to-last component). -/
def pathLabel (p : DPath) : String := ((parse_path p).map (·.1)).getD ""

/-- The sub-dataset name a path contributes (last component). -/
def pathName (p : DPath) : String := ((parse_path p).map (·.2)).getD ""

/-- The users rows one path contributes. -/
def rowsAt (env : DsEnv) (p : DPath) : List UserRow :=
  match extract_users_from_path env p with
  | some (us, _, _) => us
  | none => []

/-- The users rows a path list contributes, concatenated in order (one
contribution per occurrence, as in the source's `users_dfs` list). -/
def rowsOf (env : DsEnv) (ps : List DPath) : List UserRow :=
  (ps.map (rowsAt env)).flatten

theorem extract_users_parse (env : DsEnv) (p : DPath) (us : List UserRow)
    (l n : String) (h : extract_users_from_path env p = some (us, l, n)) :
    parse_path p = some (l, n) := by
  cases he : env p with
  | none => simp [extract_users_from_path, he] at h
  | some ids =>
    cases hp : parse_path p with
    | none => simp [extract_users_from_path, he, hp] at h
    | some ln =>
      obtain ⟨l0, n0⟩ := ln
      simp [extract_users_from_path, he, hp] at h
      rw [h.2.1, h.2.2]

theorem loadPaths_valid (env : DsEnv) :
    ∀ (ps : List DPath) (st st' : LoadState), loadPaths env st ps = some st' →
    ∀ p ∈ ps, (extract_users_from_path env p).isSome := by
  intro ps
  induction ps with
  | nil => intro st st' _ p hp; simp at hp
  | cons q qs ih =>
    intro st st' h p hp
    rw [loadPaths] at h
    cases hs : loadStep env st q with
    | none => rw [hs] at h; simp at h
    | some st1 =>
      rw [hs] at h
      rcases List.mem_cons.mp hp with rfl | hmem
      · by_contra hnone
        rw [Option.not_isSome_iff_eq_none] at hnone
        simp [loadStep, hnone] at hs
      · exact ih st1 st' h p hmem

theorem loadPaths_eq (env : DsEnv) :
    ∀ (ps : List DPath) (st : LoadState),
    (∀ p ∈ ps, (extract_users_from_path env p).isSome) →
    loadPaths env st ps = some
      { label := (ps.map pathLabel).foldl combineLabel st.label
      , names := (ps.map pathName).foldl insertNew st.names
      , rows := st.rows ++ rowsOf env ps
      , paths := ps.foldl insertNew st.paths } := by
  intro ps
  induction ps with
  | nil => intro st _; simp [loadPaths, rowsOf]
  | cons p ps ih =>
    intro st hv
    obtain ⟨⟨us, l, n⟩, hx⟩ := Option.isSome_iff_exists.mp (hv p (by simp))
    have hparse := extract_users_parse env p us l n hx
    have hstep : loadStep env st p = some
        { label := combineLabel st.label l, names := insertNew st.names n
        , rows := st.rows ++ us, paths := insertNew st.paths p } := by
      rw [loadStep, hx]
    simp only [loadPaths, hstep]
    rw [ih _ (fun q hq => hv q (List.mem_cons_of_mem p hq))]
    have hl : pathLabel p = l := by simp [pathLabel, hparse]
    have hn : pathName p = n := by simp [pathName, hparse]
    have hr : rowsAt env p = us := by simp [rowsAt, hx]
    simp [rowsOf, hl, hn, hr, List.append_assoc]

theorem datasetMk_eq (env : DsEnv) (ps : List DPath)
    (hv : ∀ p ∈ ps, (extract_users_from_path env p).isSome) :
    datasetMk env ps = some
      { label := (ps.map pathLabel).foldl combineLabel none
      , names := (ps.map pathName).foldl insertNew []
      , fullUsers := rowsOf env ps
      , users := rowsOf env ps
      , paths := ps.foldl insertNew []
      , undersampled := false } := by
  unfold datasetMk setFromPaths
  rw [loadPaths_eq env ps ⟨none, [], [], []⟩ hv]
  simp [rowsOf]

theorem datasetMk_users_full (env : DsEnv) (ps : List DPath) (d : Dataset)
    (h : datasetMk env ps = some d) : d.users = d.fullUsers := by
  unfold datasetMk setFromPaths at h
  cases hl : loadPaths env ⟨none, [], [], []⟩ ps with
  | none => rw [hl] at h; simp at h
  | some st =>
    rw [hl] at h
    simp only [Option.some.injEq] at h
    rw [← h]

theorem datasetMk_valid (env : DsEnv) (ps : List DPath) (d : Dataset)
    (h : datasetMk env ps = some d) :
    ∀ p ∈ ps, (extract_users_from_path env p).isSome := by
  unfold datasetMk setFromPaths at h
  cases hl : loadPaths env ⟨none, [], [], []⟩ ps with
  | none => rw [hl] at h; simp at h
  | some st => exact loadPaths_valid env ps _ st hl

/-! ### Label-fold lemmas -/

theorem combineLabel_mixed (l : String) :
    combineLabel (some "mixed") l = some "mixed" := by
  simp only [combineLabel]
  split <;> rfl

theorem foldl_combineLabel_mixed :
    ∀ ls : List String, List.foldl combineLabel (some "mixed") ls = some "mixed" := by
  intro ls
  induction ls with
  | nil => rfl
  | cons x xs ih => rw [List.foldl_cons, combineLabel_mixed, ih]

theorem foldl_combineLabel_all (l : String) :
    ∀ ls : List String, (∀ x ∈ ls, x = l) →
    List.foldl combineLabel (some l) ls = some l := by
  intro ls
  induction ls with
  | nil => intro _; rfl
  | cons x xs ih =>
    intro h
    have hx : x = l := h x (by simp)
    rw [List.foldl_cons, hx]
    have : combineLabel (some l) l = some l := by simp [combineLabel]
    rw [this]
    exact ih (fun y hy => h y (List.mem_cons_of_mem x hy))

theorem foldl_combineLabel_none_all (l : String) (ls : List String)
    (h0 : ls ≠ []) (h : ∀ x ∈ ls, x = l) :
    List.foldl combineLabel none ls = some l := by
  obtain ⟨x, tl, rfl⟩ := List.exists_cons_of_ne_nil h0
  have hx : x = l := h x (by simp)
  rw [List.foldl_cons, hx]
  have : combineLabel none l = some l := rfl
  rw [this]
  exact foldl_combineLabel_all l tl (fun y hy => h y (List.mem_cons_of_mem x hy))

/-! ### Helper lemmas for the dataset claims -/

theorem setUsers_some_subset (d : Dataset) (us : List UserRow) (d' : Dataset)
    (h : setUsers d us = some d') :
    d'.fullUsers = d.fullUsers ∧ ∀ i ∈ d'.currentIds, i ∈ d'.fullIds := by
  unfold setUsers at h
  by_cases hall : us.all (fun u => u.uid ∈ d.fullIds)
  · rw [if_pos hall] at h
    by_cases hlen : us.length = d.fullUsers.length
    · rw [if_pos hlen] at h
      obtain rfl := Option.some.inj h
      exact ⟨rfl, fun i hi => hi⟩
    · rw [if_neg hlen] at h
      obtain rfl := Option.some.inj h
      refine ⟨rfl, ?_⟩
      intro i hi
      simp only [Dataset.currentIds, List.mem_map] at hi
      obtain ⟨u, hu, rfl⟩ := hi
      have h2 : ∀ u ∈ us, u.uid ∈ d.fullIds := by simpa using hall
      exact h2 u hu
  · rw [if_neg hall] at h
    simp at h

theorem setUsers_none_iff (d : Dataset) (us : List UserRow) :
    setUsers d us = none ↔ ¬ ∀ u ∈ us, u.uid ∈ d.fullIds := by
  unfold setUsers
  by_cases hall : us.all (fun u => u.uid ∈ d.fullIds)
  · rw [if_pos hall]
    have h2 : ∀ u ∈ us, u.uid ∈ d.fullIds := by simpa using hall
    exact iff_of_false (by intro h; split at h <;> simp at h) (not_not_intro h2)
  · rw [if_neg hall]
    refine iff_of_true rfl ?_
    intro hforall
    exact hall (by simpa using hforall)

theorem undersample_subset (sampler : Nat → List UserRow → List UserRow)
    (hs : SamplerOK sampler) (d : Dataset) (n : Nat) :
    ∀ i ∈ (undersample sampler d n).currentIds,
      i ∈ (undersample sampler d n).fullIds := by
  unfold undersample
  split
  · exact fun i hi => hi
  · intro i hi
    simp only [Dataset.currentIds, List.mem_map] at hi
    obtain ⟨u, hu, rfl⟩ := hi
    exact List.mem_map_of_mem _ ((hs n d.fullUsers).1 u hu)

theorem datasetMk_subset (env : DsEnv) (ps : List DPath) (d : Dataset)
    (h : datasetMk env ps = some d) : ∀ i ∈ d.currentIds, i ∈ d.fullIds := by
  have heq := datasetMk_users_full env ps d h
  intro i hi
  unfold Dataset.currentIds at hi
  rw [heq] at hi
  exact hi

theorem datasetAdd_subset (env : DsEnv) (a b c : Dataset)
    (h : datasetAdd env a b = some c) : ∀ i ∈ c.currentIds, i ∈ c.fullIds := by
  unfold datasetAdd at h
  cases hm : datasetMk env (a.paths ++ b.paths) with
  | none => rw [hm] at h; simp at h
  | some nd =>
    rw [hm] at h
    exact (setUsers_some_subset nd _ c h).2

/-! ### Concrete environments used in counterexamples and witnesses -/

/-- A tiny filesystem with one human and one fake sub-dataset folder. -/
def envH : DsEnv := fun p =>
  if p = ["human", "dsA"] then some [1, 2, 3]
  else if p = ["fake", "dsB"] then some [4, 5]
  else none

/-- Fallback value used only to strip `some` from constructions that are
separately proved (by `decide`) to succeed. -/
def emptyDataset : Dataset := ⟨none, [], [], [], [], false⟩

def dsA : Dataset := (datasetMk envH [["human", "dsA"]]).getD emptyDataset

def dsB : Dataset := (datasetMk envH [["fake", "dsB"]]).getD emptyDataset

def dsAB : Dataset :=
  (datasetMk envH [["human", "dsA"], ["fake", "dsB"]]).getD emptyDataset

/-- A filesystem with two pairs of differently-labeled folders, used to build
two datasets that are each already `"mixed"`. -/
def envM : DsEnv := fun p =>
  if p = ["human", "m1"] then some [10]
  else if p = ["fake", "m2"] then some [11]
  else if p = ["human", "m3"] then some [12]
  else if p = ["fake", "m4"] then some [13]
  else none

def aMix : Dataset :=
  (datasetMk envM [["human", "m1"], ["fake", "m2"]]).getD emptyDataset

def bMix : Dataset :=
  (datasetMk envM [["human", "m3"], ["fake", "m4"]]).getD emptyDataset

/-! ### C1: undersample -/

/-- C1 (amended): `Dataset.undersample(n)` compares `n` against the CURRENT
size `self.size`, not the full size.  When `n ≥ size` it resets to the full
frame with `undersampled = False`; when `n < size` (current size) it draws
`n` accounts uniformly without replacement from `full_accounts` and sets
`undersampled = True`.  Only for a dataset that is not already undersampled
does the current size coincide with the full size claimed by the spec. -/
theorem c1_undersample_current_size
    (sampler : Nat → List UserRow → List UserRow) (hs : SamplerOK sampler)
    (d : Dataset) (n : Nat) (hlen : d.users.length ≤ d.fullUsers.length) :
    (d.size ≤ n →
      (undersample sampler d n).users = d.fullUsers ∧
      (undersample sampler d n).undersampled = false) ∧
    (n < d.size →
      (undersample sampler d n).users.length = n ∧
      (∀ u ∈ (undersample sampler d n).users, u ∈ d.fullUsers) ∧
      (undersample sampler d n).undersampled = true) := by
  constructor
  · intro h
    simp only [undersample, if_pos h]
    exact ⟨rfl, rfl⟩
  · intro h
    have hn : ¬ (d.size ≤ n) := by omega
    have hn' : n ≤ d.fullUsers.length := by
      simp only [Dataset.size] at h
      omega
    have hsam := hs n d.fullUsers
    simp only [undersample, if_neg hn]
    exact ⟨hsam.2 hn', fun u hu => hsam.1 u hu, trivial⟩

/-- C1 witness: on the freshly built 3-account dataset `dsA`,
`undersample(1)` leaves exactly 1 account drawn from the full frame and sets
the flag. -/
theorem c1_witness :
    (undersample takeSampler dsA 1).users.length = 1 ∧
    (∀ u ∈ (undersample takeSampler dsA 1).users, u ∈ dsA.fullUsers) ∧
    (undersample takeSampler dsA 1).undersampled = true :=
  (c1_undersample_current_size takeSampler takeSampler_ok dsA 1 (by decide)).2
    (by decide)

/-- C1 counterexample: `dsA` has full size 3 and, after `undersample(1)`,
current size 1.  The claim demands that a further `undersample(2)` (with
`0 ≤ 2 < 3 = full_size`) leave 2 accounts and `undersampled = True`, because
it is said to hold "regardless of whether A was already undersampled"; the
code instead compares 2 against the current size 1 and resets to all 3
accounts with `undersampled = False`. -/
theorem c1_counterexample :
    (undersample takeSampler (undersample takeSampler dsA 1) 2).users.length = 3 ∧
    (undersample takeSampler (undersample takeSampler dsA 1) 2).undersampled = false ∧
    ¬ ((undersample takeSampler (undersample takeSampler dsA 1) 2).users.length = 2 ∧
       (undersample takeSampler (undersample takeSampler dsA 1) 2).undersampled = true) := by
  decide

/-! ### C3: current ⊆ full invariant -/

/-- C3: the current account index is contained in the full account index
after construction and after every operation (users-setter success,
undersampling, reset, union); the users setter raises
`UserOutsideDatasetError` (modeled `none`, the pure state untouched) exactly
when some assigned row's id is outside the full index. -/
theorem c3_subset_invariant :
    (∀ (env : DsEnv) (ps : List DPath) (d : Dataset), datasetMk env ps = some d →
      ∀ i ∈ d.currentIds, i ∈ d.fullIds) ∧
    (∀ (d : Dataset) (us : List UserRow),
      setUsers d us = none ↔ ¬ ∀ u ∈ us, u.uid ∈ d.fullIds) ∧
    (∀ (d : Dataset) (us : List UserRow) (d' : Dataset), setUsers d us = some d' →
      d'.fullUsers = d.fullUsers ∧ ∀ i ∈ d'.currentIds, i ∈ d'.fullIds) ∧
    (∀ sampler, SamplerOK sampler → ∀ (d : Dataset) (n : Nat),
      ∀ i ∈ (undersample sampler d n).currentIds,
        i ∈ (undersample sampler d n).fullIds) ∧
    (∀ d : Dataset, ∀ i ∈ (reset_full_users d).currentIds,
      i ∈ (reset_full_users d).fullIds) ∧
    (∀ (env : DsEnv) (a b c : Dataset), datasetAdd env a b = some c →
      ∀ i ∈ c.currentIds, i ∈ c.fullIds) :=
  ⟨datasetMk_subset, setUsers_none_iff, setUsers_some_subset,
   undersample_subset, fun _ _ hi => hi, datasetAdd_subset⟩

/-- C3 witness: concrete instances of the invariant theorem — construction
of `dsA`, an undersampling step on it, and a rejected assignment of a row
with id 9 outside `dsA`. -/
theorem c3_witness :
    (∀ i ∈ dsA.currentIds, i ∈ dsA.fullIds) ∧
    (∀ i ∈ (undersample takeSampler dsA 1).currentIds,
      i ∈ (undersample takeSampler dsA 1).fullIds) ∧
    (setUsers dsA [⟨9, "human", "dsA"⟩] = none ↔
      ¬ ∀ u ∈ [(⟨9, "human", "dsA"⟩ : UserRow)], u.uid ∈ dsA.fullIds) :=
  ⟨c3_subset_invariant.1 envH [["human", "dsA"]] dsA (by decide),
   c3_subset_invariant.2.2.2.1 takeSampler takeSampler_ok dsA 1,
   c3_subset_invariant.2.1 dsA [⟨9, "human", "dsA"⟩]⟩

/-! ### C4: comparisons with a non-dataset operand -/

/-- C4 (amended): `Dataset.__lt__` and `Dataset.__gt__` guard on
`isinstance` and, for a non-`Dataset` operand, silently evaluate to `False`
— no error is raised (unlike `__add__`/`__iadd__`, which do raise). -/
theorem c4_lt_gt_nonDataset (a : Dataset) :
    datasetLt a PyOperand.nonDataset = false ∧
    datasetGt a PyOperand.nonDataset = false :=
  ⟨rfl, rfl⟩

/-- C4 counterexample: on the concrete dataset `dsA`, both strict
comparisons with a non-dataset operand evaluate to `False` instead of
failing with an error, refuting the claim that they "never silently
evaluate to False". -/
theorem c4_counterexample :
    datasetLt dsA PyOperand.nonDataset = false ∧
    datasetGt dsA PyOperand.nonDataset = false := by
  decide

/-! ### C9: dataset name -/

/-- C9 (amended): the name of a dataset built from two folders with distinct
sub-dataset names is the two names joined by the ASCII separator `" U "`
(in the name set's iteration order, modeled as insertion order) — not by
`" ∪ "` as the claim states. -/
theorem c9_name_ascii_join (env : DsEnv) (pA pB : DPath) (lA nA lB nB : String)
    (d : Dataset)
    (hpA : parse_path pA = some (lA, nA)) (hpB : parse_path pB = some (lB, nB))
    (hne : nA ≠ nB) (hd : datasetMk env [pA, pB] = some d) :
    d.names = [nA, nB] ∧ d.name = nA ++ " U " ++ nB := by
  have hv := datasetMk_valid env [pA, pB] d hd
  rw [datasetMk_eq env [pA, pB] hv] at hd
  obtain rfl := Option.some.inj hd
  have hnames : (([pA, pB].map pathName).foldl insertNew []) = [nA, nB] := by
    simp [pathName, hpA, hpB, insertNew, Ne.symm hne]
  refine ⟨hnames, ?_⟩
  show joinSep " U " (([pA, pB].map pathName).foldl insertNew []) = _
  rw [hnames]
  rfl

/-- C9 witness: the union dataset built over `dsA`'s and `dsB`'s folders is
named `"dsA U dsB"`. -/
theorem c9_witness : dsAB.names = ["dsA", "dsB"] ∧ dsAB.name = "dsA" ++ " U " ++ "dsB" :=
  c9_name_ascii_join envH ["human", "dsA"] ["fake", "dsB"] "human" "dsA"
    "fake" "dsB" dsAB (by decide) (by decide) (by decide) (by decide)

/-- C9 counterexample: the concrete two-folder dataset is named
`"dsA U dsB"` (ASCII `U`), not `"dsA ∪ dsB"` as the claim requires. -/
theorem c9_counterexample :
    dsAB.name = "dsA U dsB" ∧ dsAB.name ≠ "dsA ∪ dsB" := by
  decide

/-! ### C2: union -/

theorem mem_iff_of_nodup_subset_length (ca fa : List Nat) (hnd : ca.Nodup)
    (hsub : ∀ i ∈ ca, i ∈ fa) (hlen : fa.length ≤ ca.length) :
    ∀ i, i ∈ fa ↔ i ∈ ca := by
  have hsub' : ca ⊆ fa.dedup := fun i hi => List.mem_dedup.2 (hsub i hi)
  have hsp : List.Subperm ca fa.dedup := hnd.subperm hsub'
  have h1 : ca.length ≤ fa.dedup.length := hsp.length_le
  have h2 : fa.dedup.length ≤ fa.length := (List.dedup_sublist fa).length_le
  have hperm : List.Perm ca fa.dedup := hsp.perm_of_length_le (by omega)
  intro i
  rw [← List.mem_dedup (l := fa)]
  exact (hperm.mem_iff).symm

theorem setUsers_eq_of_all (d : Dataset) (us : List UserRow)
    (hall : ∀ u ∈ us, u.uid ∈ d.fullIds) :
    setUsers d us = if us.length = d.fullUsers.length
      then some { d with undersampled := false, users := d.fullUsers }
      else some { d with undersampled := true, users := us } := by
  unfold setUsers
  rw [if_pos (by simpa using hall)]

/-- C2 (amended): for two same-type datasets whose state is reachable
(valid paths, full frame built from the paths, duplicate-free current index
contained in the full index, each operand built from uniformly labeled
folders with a label other than the literal `"mixed"` for the left operand),
the union has current account-id SET equal to the union of the operands'
current account-id sets, and its label is `"mixed"` iff the operands' labels
differ.  The claim's unrestricted `iff` fails when both operands are
themselves already mixed, which is what the counterexample shows. -/
theorem c2_union (env : DsEnv) (a b : Dataset) (la lb : String)
    (hva : ∀ p ∈ a.paths, (extract_users_from_path env p).isSome)
    (hvb : ∀ p ∈ b.paths, (extract_users_from_path env p).isSome)
    (hfa : a.fullUsers = rowsOf env a.paths)
    (hfb : b.fullUsers = rowsOf env b.paths)
    (hsa : ∀ i ∈ a.currentIds, i ∈ a.fullIds)
    (hsb : ∀ i ∈ b.currentIds, i ∈ b.fullIds)
    (hna : a.currentIds.Nodup) (hnb : b.currentIds.Nodup)
    (hpa : a.paths ≠ []) (hpb : b.paths ≠ [])
    (hlA : ∀ p ∈ a.paths, pathLabel p = la)
    (hlB : ∀ p ∈ b.paths, pathLabel p = lb)
    (hmA : la ≠ "mixed")
    (haL : a.label = some la) (hbL : b.label = some lb) :
    ∃ c, datasetAdd env a b = some c ∧
      (∀ i, i ∈ c.currentIds ↔ i ∈ a.currentIds ∨ i ∈ b.currentIds) ∧
      (c.label = some "mixed" ↔ a.label ≠ b.label) := by
  have hv : ∀ p ∈ a.paths ++ b.paths, (extract_users_from_path env p).isSome := by
    intro p hp
    rcases List.mem_append.mp hp with h | h
    · exact hva p h
    · exact hvb p h
  have hlab : ((a.paths ++ b.paths).map pathLabel).foldl combineLabel none
      = some (if la = lb then la else "mixed") := by
    rw [List.map_append, List.foldl_append]
    have ha : (a.paths.map pathLabel).foldl combineLabel none = some la := by
      apply foldl_combineLabel_none_all
      · simpa using hpa
      · intro x hx
        obtain ⟨p, hp, rfl⟩ := List.mem_map.mp hx
        exact hlA p hp
    rw [ha]
    by_cases hll : la = lb
    · rw [if_pos hll]
      apply foldl_combineLabel_all
      intro x hx
      obtain ⟨p, hp, rfl⟩ := List.mem_map.mp hx
      rw [hlB p hp, hll]
    · rw [if_neg hll]
      obtain ⟨q, qs, hq⟩ := List.exists_cons_of_ne_nil hpb
      rw [hq]
      simp only [List.map_cons, List.foldl_cons]
      have h1 : combineLabel (some la) (pathLabel q) = some "mixed" := by
        rw [hlB q (by rw [hq]; exact List.mem_cons_self q qs)]
        simp [combineLabel, hll]
      rw [h1, foldl_combineLabel_mixed]
  have hmk := datasetMk_eq env (a.paths ++ b.paths) hv
  set nd : Dataset :=
    { label := ((a.paths ++ b.paths).map pathLabel).foldl combineLabel none
    , names := ((a.paths ++ b.paths).map pathName).foldl insertNew []
    , fullUsers := rowsOf env (a.paths ++ b.paths)
    , users := rowsOf env (a.paths ++ b.paths)
    , paths := (a.paths ++ b.paths).foldl insertNew []
    , undersampled := false } with hnddef
  have hndfull : nd.fullUsers = a.fullUsers ++ b.fullUsers := by
    rw [hnddef, hfa, hfb]
    simp [rowsOf]
  have hndlabel : nd.label = some (if la = lb then la else "mixed") := by
    rw [hnddef]
    exact hlab
  have hndids : nd.fullIds = a.fullIds ++ b.fullIds := by
    unfold Dataset.fullIds
    rw [hndfull, List.map_append]
  have hall : ∀ u ∈ a.users ++ b.users, u.uid ∈ nd.fullIds := by
    intro u hu
    rw [hndids]
    rcases List.mem_append.mp hu with h | h
    · exact List.mem_append_left _ (hsa u.uid (List.mem_map_of_mem _ h))
    · exact List.mem_append_right _ (hsb u.uid (List.mem_map_of_mem _ h))
  have hadd : datasetAdd env a b = setUsers nd (a.users ++ b.users) := by
    unfold datasetAdd
    rw [hmk]
  have hlabiff : nd.label = some "mixed" ↔ a.label ≠ b.label := by
    rw [hndlabel, haL, hbL]
    by_cases hll : la = lb
    · rw [if_pos hll]
      subst hll
      simp [hmA]
    · rw [if_neg hll]
      simp [hll]
  rw [hadd, setUsers_eq_of_all nd _ hall]
  by_cases hlen : (a.users ++ b.users).length = nd.fullUsers.length
  · rw [if_pos hlen]
    refine ⟨_, rfl, ?_, hlabiff⟩
    have hle_a : a.currentIds.length ≤ a.fullIds.length :=
      List.Subperm.length_le (hna.subperm (fun i hi => hsa i hi))
    have hle_b : b.currentIds.length ≤ b.fullIds.length :=
      List.Subperm.length_le (hnb.subperm (fun i hi => hsb i hi))
    have hsum : a.users.length + b.users.length
        = a.fullUsers.length + b.fullUsers.length := by
      rw [hndfull] at hlen
      simpa using hlen
    have hfa_le : a.fullIds.length ≤ a.currentIds.length := by
      simp only [Dataset.currentIds, Dataset.fullIds, List.length_map] at hle_a hle_b ⊢
      omega
    have hfb_le : b.fullIds.length ≤ b.currentIds.length := by
      simp only [Dataset.currentIds, Dataset.fullIds, List.length_map] at hle_a hle_b ⊢
      omega
    have hmema := mem_iff_of_nodup_subset_length a.currentIds a.fullIds hna hsa hfa_le
    have hmemb := mem_iff_of_nodup_subset_length b.currentIds b.fullIds hnb hsb hfb_le
    intro i
    show i ∈ nd.fullUsers.map (·.uid) ↔ _
    rw [hndfull, List.map_append, List.mem_append]
    constructor
    · rintro (h | h)
      · exact Or.inl ((hmema i).mp h)
      · exact Or.inr ((hmemb i).mp h)
    · rintro (h | h)
      · exact Or.inl ((hmema i).mpr h)
      · exact Or.inr ((hmemb i).mpr h)
  · rw [if_neg hlen]
    refine ⟨_, rfl, ?_, hlabiff⟩
    intro i
    show i ∈ (a.users ++ b.users).map (·.uid) ↔ _
    rw [List.map_append, List.mem_append]
    exact Iff.rfl

def cAB : Dataset := (datasetAdd envH dsA dsB).getD emptyDataset

/-- C2 witness: the union of the concrete human dataset `dsA` and fake
dataset `dsB` exists, its current index is the union of the operands'
current indices (instantiated at id 4), and it is labeled `"mixed"` exactly
because the operands' labels differ. -/
theorem c2_witness :
    datasetAdd envH dsA dsB = some cAB ∧
    (4 ∈ cAB.currentIds ↔ 4 ∈ dsA.currentIds ∨ 4 ∈ dsB.currentIds) ∧
    (cAB.label = some "mixed" ↔ dsA.label ≠ dsB.label) := by
  obtain ⟨c, hc, hmem, hlabel⟩ := c2_union envH dsA dsB "human" "fake"
    (by decide) (by decide) (by decide) (by decide) (by decide) (by decide)
    (by decide) (by decide) (by decide) (by decide) (by decide) (by decide)
    (by decide) (by decide) (by decide)
  have hcc : cAB = c := by
    simp only [cAB, hc, Option.getD_some]
  subst hcc
  exact ⟨hc, hmem 4, hlabel⟩

def cMix : Dataset := (datasetAdd envM aMix bMix).getD emptyDataset

/-- C2 counterexample: `aMix` and `bMix` are each built from one human and
one fake folder, so both already carry the label `"mixed"`.  Their union is
also labeled `"mixed"`, yet `aMix.label = bMix.label`, refuting the claimed
equivalence "`(A + B).label` is `"mixed"` iff `A.label ≠ B.label`". -/
theorem c2_counterexample :
    (datasetAdd envM aMix bMix).isSome = true ∧
    aMix.label = bMix.label ∧
    cMix.label = some "mixed" ∧
    ¬ (cMix.label = some "mixed" ↔ aMix.label ≠ bMix.label) := by
  decide

/-! ### Datafile (datafile.py): process-wide cache and column extraction -/

/-- A normalized pandas table: ordered named columns (cell values kept
abstract as strings). -/
structure Table where
  cols : List (String × List String)
deriving DecidableEq

/-- The process-wide class attribute `Datafile._loaded` plus an allocation
counter.  Each cached entry carries the allocation stamp of the parse that
created it: equal stamps denote the SAME Python object (object identity). -/
structure DfWorld where
  loaded : List (String × Nat × Table)
  nextStamp : Nat
deriving DecidableEq

/-- `self._loaded[path]` (with membership test). -/
def lookupLoaded (w : DfWorld) (rp : String) : Option (Nat × Table) :=
  (w.loaded.find? (fun e => e.1 = rp)).map (·.2)

/-- `os.path.abspath(os.path.join(os.path.normpath(path), f"{kind}.csv"))`;
normalization is the OS collaborator's job, so the argument path is taken
already normalized and absolute and the resolution is a concatenation.
`pfx` models the datafile subclass's registered `prefix` attribute. -/
def resolveCsv (path pfx : String) : String := path ++ "/" ++ pfx ++ ".csv"

/-- `Datafile.__init__(path)`: resolve the csv path; on a cache miss, read
the file (`fs`, modeling `pd.read_csv`), run the subclass's `_prepare_data`
normalization (`prep`) and store the result under a fresh allocation stamp;
on a hit, touch nothing.  Returns the new world and the object's `_path`
handle. -/
def datafileInit (fs : String → Table) (prep : Table → Table) (pfx : String)
    (w : DfWorld) (path : String) : DfWorld × String :=
  let rp := resolveCsv path pfx
  match lookupLoaded w rp with
  | some _ => (w, rp)
  | none =>
    ({ loaded := w.loaded ++ [(rp, w.nextStamp, prep (fs rp))]
     , nextStamp := w.nextStamp + 1 }, rp)

/-- Column lookup in a table. -/
def lookupCol (t : Table) (c : String) : Option (List String) :=
  (t.cols.find? (fun e => e.1 = c)).map (·.2)

/-- `self.user_grouped_df[columns_names].rename(...)`: select the requested
columns in order (`none` models the KeyError on a missing column), renaming
each `name` to `f"{kind}_{name}"`. -/
def selectCols (pfx : String) (t : Table) :
    List String → Option (List (String × List String))
  | [] => some []
  | c :: cs =>
    match lookupCol t c, selectCols pfx t cs with
    | some v, some rest => some ((pfx ++ "_" ++ c, v) :: rest)
    | _, _ => none

/-- `Datafile.extract(columns_names)`: read the cached table through
`user_grouped_df` and return the renamed column selection as a fresh table;
the world is returned unchanged (`__getitem__` and the non-inplace `rename`
allocate a new frame and never write into `_loaded`). -/
def datafileExtract (pfx : String) (w : DfWorld) (rp : String)
    (cols : List String) : DfWorld × Option Table :=
  match lookupLoaded w rp with
  | none => (w, none)
  | some (_, t) => (w, (selectCols pfx t cols).map Table.mk)

theorem find?_append_some {α : Type} (p : α → Bool) (l2 : List α) :
    ∀ (l1 : List α) (x : α), l1.find? p = some x → (l1 ++ l2).find? p = some x := by
  intro l1
  induction l1 with
  | nil => intro x h; simp at h
  | cons a l ih =>
    intro x h
    by_cases hpa : p a = true
    · rw [List.find?_cons_of_pos _ hpa] at h
      rw [List.cons_append, List.find?_cons_of_pos _ hpa]
      exact h
    · rw [List.find?_cons_of_neg _ (by simpa using hpa)] at h
      rw [List.cons_append, List.find?_cons_of_neg _ (by simpa using hpa)]
      exact ih x h

theorem lookupLoaded_preserved (w : DfWorld) (e' : String × Nat × Table)
    (m : Nat) (rp : String) (x : Nat × Table) (h : lookupLoaded w rp = some x) :
    lookupLoaded ⟨w.loaded ++ [e'], m⟩ rp = some x := by
  unfold lookupLoaded at h ⊢
  cases hf : w.loaded.find? (fun e => e.1 = rp) with
  | none => rw [hf] at h; simp at h
  | some e =>
    rw [hf] at h
    rw [find?_append_some _ _ _ _ hf]
    exact h

theorem find?_append_none {α : Type} (p : α → Bool) (l2 : List α) :
    ∀ l1 : List α, l1.find? p = none → (l1 ++ l2).find? p = l2.find? p := by
  intro l1
  induction l1 with
  | nil => intro _; simp
  | cons a l ih =>
    intro h
    by_cases hpa : p a = true
    · rw [List.find?_cons_of_pos _ hpa] at h
      simp at h
    · rw [List.find?_cons_of_neg _ (by simpa using hpa)] at h
      rw [List.cons_append, List.find?_cons_of_neg _ (by simpa using hpa)]
      exact ih h

theorem lookupLoaded_miss_insert (w : DfWorld) (r : String) (s : Nat)
    (t : Table) (m : Nat) (h : lookupLoaded w r = none) :
    lookupLoaded ⟨w.loaded ++ [(r, s, t)], m⟩ r = some (s, t) := by
  unfold lookupLoaded at h ⊢
  cases hf : w.loaded.find? (fun e => e.1 = r) with
  | some e => rw [hf] at h; simp at h
  | none =>
    rw [find?_append_none _ _ _ hf]
    simp [List.find?]

/-- C7: constructing a table loader twice over the same resolved absolute
path parses at most once.  The second construction leaves the whole world —
cache and allocation counter — unchanged, its handle resolves to the very
same cached entry (equal allocation stamp: object identity, not mere
equality), and a construction never evicts any pre-existing cache entry. -/
theorem c7_cache_hit (fs : String → Table) (prep : Table → Table)
    (pfx : String) (w : DfWorld) (pa pb : String)
    (hr : resolveCsv pa pfx = resolveCsv pb pfx) :
    (datafileInit fs prep pfx (datafileInit fs prep pfx w pa).1 pb).1
        = (datafileInit fs prep pfx w pa).1 ∧
    ((lookupLoaded (datafileInit fs prep pfx w pa).1
        (datafileInit fs prep pfx w pa).2).isSome = true) ∧
    lookupLoaded (datafileInit fs prep pfx (datafileInit fs prep pfx w pa).1 pb).1
        (datafileInit fs prep pfx (datafileInit fs prep pfx w pa).1 pb).2
      = lookupLoaded (datafileInit fs prep pfx w pa).1
        (datafileInit fs prep pfx w pa).2 ∧
    (∀ rp x, lookupLoaded w rp = some x →
      lookupLoaded (datafileInit fs prep pfx w pa).1 rp = some x) := by
  have hfirst : (datafileInit fs prep pfx w pa).2 = resolveCsv pa pfx := by
    unfold datafileInit
    cases hl : lookupLoaded w (resolveCsv pa pfx) <;> simp [hl]
  have hsome : (lookupLoaded (datafileInit fs prep pfx w pa).1
      (resolveCsv pa pfx)).isSome = true := by
    unfold datafileInit
    cases hl : lookupLoaded w (resolveCsv pa pfx) with
    | some e => simp [hl]
    | none =>
      simp only [hl]
      rw [lookupLoaded_miss_insert w _ _ _ _ hl]
      rfl
  obtain ⟨e1, he1⟩ := Option.isSome_iff_exists.mp hsome
  have hhit : ∀ (w' : DfWorld) (path : String) (e : Nat × Table),
      lookupLoaded w' (resolveCsv path pfx) = some e →
      datafileInit fs prep pfx w' path = (w', resolveCsv path pfx) := by
    intro w' path e h
    simp only [datafileInit]
    rw [h]
  have hsecond : datafileInit fs prep pfx (datafileInit fs prep pfx w pa).1 pb
      = ((datafileInit fs prep pfx w pa).1, resolveCsv pb pfx) :=
    hhit _ pb e1 (by rw [← hr]; exact he1)
  refine ⟨?_, ?_, ?_, ?_⟩
  · rw [hsecond]
  · rw [hfirst]
    exact hsome
  · rw [hsecond, hfirst, ← hr]
  · intro rp x hx
    unfold datafileInit
    cases hl : lookupLoaded w (resolveCsv pa pfx) with
    | some e => simp only [hl]; exact hx
    | none =>
      simp only [hl]
      exact lookupLoaded_preserved w _ _ rp x hx

/-- Concrete file system and fresh world used in the C7 and C10 witnesses. -/
def fs0 : String → Table := fun _ => ⟨[("id", ["1", "2"]), ("name", ["ann", ""])]⟩

def w0 : DfWorld := ⟨[], 0⟩

/-- C7 witness: loading folder `"data"` twice with the `users` kind in a
fresh world — the second construction changes nothing and observes the
identical cached object. -/
theorem c7_witness :
    (datafileInit fs0 id "users" (datafileInit fs0 id "users" w0 "data").1 "data").1
        = (datafileInit fs0 id "users" w0 "data").1 ∧
    ((lookupLoaded (datafileInit fs0 id "users" w0 "data").1
        (datafileInit fs0 id "users" w0 "data").2).isSome = true) ∧
    lookupLoaded (datafileInit fs0 id "users" (datafileInit fs0 id "users" w0 "data").1 "data").1
        (datafileInit fs0 id "users" (datafileInit fs0 id "users" w0 "data").1 "data").2
      = lookupLoaded (datafileInit fs0 id "users" w0 "data").1
        (datafileInit fs0 id "users" w0 "data").2 := by
  have h := c7_cache_hit fs0 id "users" w0 "data" "data" rfl
  exact ⟨h.1, h.2.1, h.2.2.1⟩

theorem selectCols_spec (pfx : String) (t : Table) :
    ∀ (cs : List String) (res : List (String × List String)),
    selectCols pfx t cs = some res →
    res.map (·.1) = cs.map (fun c => pfx ++ "_" ++ c) ∧
    ∀ nm v, (nm, v) ∈ res →
      ∃ c ∈ cs, nm = pfx ++ "_" ++ c ∧ lookupCol t c = some v := by
  intro cs
  induction cs with
  | nil =>
    intro res h
    simp only [selectCols, Option.some.injEq] at h
    subst h
    simp
  | cons c cs ih =>
    intro res h
    simp only [selectCols] at h
    cases hc : lookupCol t c with
    | none => rw [hc] at h; simp at h
    | some v =>
      cases hrest : selectCols pfx t cs with
      | none => rw [hc, hrest] at h; simp at h
      | some rest =>
        rw [hc, hrest] at h
        simp only [Option.some.injEq] at h
        subst h
        obtain ⟨ih1, ih2⟩ := ih rest hrest
        refine ⟨by simp [ih1], ?_⟩
        intro nm val hmem
        rcases List.mem_cons.mp hmem with heq | hmem'
        · rw [Prod.mk.injEq] at heq
          obtain ⟨rfl, rfl⟩ := heq
          exact ⟨c, by simp, rfl, hc⟩
        · obtain ⟨c', hc', hn', hv'⟩ := ih2 nm val hmem'
          exact ⟨c', List.mem_cons_of_mem c hc', hn', hv'⟩

/-- C10: `Datafile.extract` does not touch the process-wide cache (the world
comes back unchanged, so repeated extracts over the same path observe the
same original data), and on success it returns exactly the requested columns
of the cached table renamed with the `{kind}_` prefix. -/
theorem c10_extract_pure (pfx : String) (w : DfWorld) (rp : String)
    (cols : List String) :
    (datafileExtract pfx w rp cols).1 = w ∧
    datafileExtract pfx (datafileExtract pfx w rp cols).1 rp cols
      = datafileExtract pfx w rp cols ∧
    (∀ s t, lookupLoaded w rp = some (s, t) →
      ∀ t', (datafileExtract pfx w rp cols).2 = some t' →
        t'.cols.map (·.1) = cols.map (fun c => pfx ++ "_" ++ c) ∧
        ∀ nm v, (nm, v) ∈ t'.cols →
          ∃ c ∈ cols, nm = pfx ++ "_" ++ c ∧ lookupCol t c = some v) := by
  have hfst : (datafileExtract pfx w rp cols).1 = w := by
    unfold datafileExtract
    rcases hl : lookupLoaded w rp with _ | ⟨s, t⟩ <;> simp [hl]
  refine ⟨hfst, by rw [hfst], ?_⟩
  intro s t hl t' ht'
  unfold datafileExtract at ht'
  rw [hl] at ht'
  have ht2 : Option.map Table.mk (selectCols pfx t cols) = some t' := ht'
  cases hsel : selectCols pfx t cols with
  | none => rw [hsel] at ht2; simp at ht2
  | some res =>
    rw [hsel] at ht2
    simp only [Option.map_some', Option.some.injEq] at ht2
    obtain ⟨h1, h2⟩ := selectCols_spec pfx t cols res hsel
    subst ht2
    exact ⟨h1, h2⟩

/-- C10 witness: extracting columns `id` and `name` from the (cache-hit)
`users` table loaded by `c7`'s construction — the world is unchanged and the
resulting column names carry the `users_` prefix. -/
theorem c10_witness :
    (datafileExtract "users" (datafileInit fs0 id "users" w0 "data").1
        "data/users.csv" ["id", "name"]).1
      = (datafileInit fs0 id "users" w0 "data").1 ∧
    ∀ t', (datafileExtract "users" (datafileInit fs0 id "users" w0 "data").1
        "data/users.csv" ["id", "name"]).2 = some t' →
      t'.cols.map (·.1) = ["users_id", "users_name"] := by
  have h := c10_extract_pure "users" (datafileInit fs0 id "users" w0 "data").1
    "data/users.csv" ["id", "name"]
  refine ⟨h.1, ?_⟩
  intro t' ht'
  have h3 := h.2.2 0 ⟨[("id", ["1", "2"]), ("name", ["ann", ""])]⟩ (by decide) t' ht'
  exact h3.1

/-! ### Feature catalog (feature.py): string helpers -/

/-- Whether `n` is a prefix of `h` (character lists). -/
def chListStarts : List Char → List Char → Bool
  | [], _ => true
  | _ :: _, [] => false
  | a :: as, b :: bs => a == b && chListStarts as bs

/-- Whether `n` occurs inside `h` (character lists). -/
def chListHas (n : List Char) : List Char → Bool
  | [] => chListStarts n []
  | c :: cs => chListStarts n (c :: cs) || chListHas n cs

/-- Python's substring test `needle in hay`. -/
def pyIn (needle hay : String) : Bool := chListHas needle.toList hay.toList

/-- Python `str.startswith(p)`. -/
def pyStartsWith (s p : String) : Bool := chListStarts p.toList s.toList

/-- ASCII `str.lower` (Python's Unicode-aware lower coincides with it on the
ASCII tweet sources and texts these features consume). -/
def pyLowerChar (c : Char) : Char :=
  if 65 ≤ c.toNat && c.toNat ≤ 90 then Char.ofNat (c.toNat + 32) else c

def pyLower (s : String) : String := ⟨s.toList.map pyLowerChar⟩

/-- Splitting a character list at separator characters. -/
def chSplit (sep : Char → Bool) : List Char → List Char → List (List Char)
  | acc, [] => [acc.reverse]
  | acc, c :: cs =>
    if sep c then acc.reverse :: chSplit sep [] cs else chSplit sep (c :: acc) cs

/-- Python `str.split()` with no argument: split on whitespace runs,
dropping empty pieces. -/
def pySplit (s : String) : List String :=
  ((chSplit Char.isWhitespace [] s.toList).map String.mk).filter (fun w => w ≠ "")

/-- Python `max(xs, key=xs.count)`: the FIRST element attaining the maximal
count (Python's `max` replaces the best only on a strictly greater key).
`max` raises on an empty list; the aggregated per-account lists are never
empty, and the model returns `""` there. -/
def maxByCount (xs : List String) : String :=
  match xs with
  | [] => ""
  | x :: rest => rest.foldl (fun best y => if xs.count best < xs.count y then y else best) x

/-- The characters of Python's `string.punctuation`, by code point. -/
def punctCodes : List Nat :=
  [33, 34, 35, 36, 37, 38, 39, 40, 41, 42, 43, 44, 45, 46, 47, 58, 59, 60,
   61, 62, 63, 64, 91, 92, 93, 94, 95, 96, 123, 124, 125, 126]

/-- Membership in the compiled regex class `[string.punctuation]`. -/
def isPunctChar (c : Char) : Bool := punctCodes.contains c.toNat

/-! ### Feature catalog: platform features -/

/-- `uses_platform_func(source, platform)`: case-insensitive substring
test. -/
def uses_platform_func (source platform : String) : Bool :=
  pyIn (pyLower platform) (pyLower source)

/-- `is_platform_max(sources, platform_func)`: `False` on an absent source
list, else apply the platform test to the most frequent source string. -/
def is_platform_max (sources : Option (List String))
    (platform_func : String → Bool) : Bool :=
  match sources with
  | none => false
  | some ss => platform_func (maxByCount ss)

def uses_iphone_func (source : String) : Bool := uses_platform_func source "iphone"

def uses_android_func (source : String) : Bool := uses_platform_func source "android"

def uses_instagram_func (source : String) : Bool := uses_platform_func source "instagram"

def uses_foursquare_func (source : String) : Bool := uses_platform_func source "foursquare"

def uses_twitter_func (source : String) : Bool := uses_platform_func source "web"

def uses_other_func (source : String) : Bool :=
  !(uses_iphone_func source || uses_android_func source ||
    uses_instagram_func source || uses_foursquare_func source ||
    uses_twitter_func source)

def uses_api_func (source : String) : Bool := !(uses_twitter_func source)

def uses_iphone (sources : Option (List String)) : Bool :=
  is_platform_max sources uses_iphone_func

def uses_android (sources : Option (List String)) : Bool :=
  is_platform_max sources uses_android_func

def uses_instagram (sources : Option (List String)) : Bool :=
  is_platform_max sources uses_instagram_func

def uses_foursquare (sources : Option (List String)) : Bool :=
  is_platform_max sources uses_foursquare_func

def uses_twitter (sources : Option (List String)) : Bool :=
  is_platform_max sources uses_twitter_func

def uses_other (sources : Option (List String)) : Bool :=
  is_platform_max sources uses_other_func

def uses_api (sources : Option (List String)) : Bool :=
  is_platform_max sources uses_api_func

/-! ### Feature catalog: tweet-text features -/

/-- A dynamically-typed Python feature result: some features return `0` on
an absent input but a boolean otherwise. -/
inductive PyVal where
  | pbool (b : Bool)
  | pnum (q : ℚ)
deriving DecidableEq

def uses_punctuation (tweets : Option (List String)) : Bool :=
  match tweets with
  | none => false
  | some ts => ts.any (fun t => t.toList.any isPunctChar)

def uses_hashtag (tweets : Option (List String)) : Bool :=
  match tweets with
  | none => false
  | some ts => ts.any (fun t => pyIn "#" t)

def user_id_in_tweets (tweets : Option (List String)) : Bool :=
  match tweets with
  | none => false
  | some ts => ts.any (fun t => pyIn "@" t)

/-- The feature registered under the (misnamed) key `"user_id_tweets"`. -/
def urls_in_tweets (tweets : Option (List String)) : Bool :=
  match tweets with
  | none => false
  | some ts => ts.any (fun t => pyIn "http" t)

def at_least_1_retweets (tweets : Option (List String)) : Bool :=
  match tweets with
  | none => false
  | some ts => ts.any (fun t => pyStartsWith t "RT @")

/-- `len(set(tweets)) != len(tweets)`. -/
def same_tweets (tweets : Option (List String)) : Bool :=
  match tweets with
  | none => false
  | some ts => ts.dedup.length != ts.length

def same_tweets_3 (tweets : Option (List String)) : Bool :=
  match tweets with
  | none => false
  | some ts => 3 ≤ ts.count (maxByCount ts)

/-- `spam_tweets`, projected per account from the explode/groupby pipeline:
an absent tweet list explodes to a single NaN row transformed to 0; a
present list contributes the lengths of its tweets, reduced by `max`. -/
def spam_tweets (tweets : Option (List String)) : Nat :=
  match tweets with
  | none => 0
  | some ts => (ts.map String.length).foldl max 0

/-- `0 if nan else sum(startswith) >= 0.9 * len` — a number on the absent
branch, a boolean otherwise (float `0.9` modeled as the exact rational). -/
def retweet_90 (tweets : Option (List String)) : PyVal :=
  match tweets with
  | none => .pnum 0
  | some ts =>
    .pbool ((9 : ℚ)/10 * ts.length ≤ (ts.countP (fun t => pyStartsWith t "RT @") : ℚ))

def urls_90 (tweets : Option (List String)) : Bool :=
  match tweets with
  | none => false
  | some ts => (9 : ℚ)/10 * ts.length ≤ (ts.countP (fun t => pyIn "http" t) : ℚ)

/-- Rational division stands in for Python float division; Python raises
`ZeroDivisionError` on an empty tweet list (never produced by the groupby
aggregation), where the model yields `0`. -/
def urls_ratio (tweets : Option (List String)) : ℚ :=
  match tweets with
  | none => 0
  | some ts => (ts.countP (fun t => pyIn "http" t) : ℚ) / ts.length

def api_ratio (sources : Option (List String)) : ℚ :=
  match sources with
  | none => 0
  | some ss => (ss.countP uses_api_func : ℚ) / ss.length

def api_urls_ratio (tweets sources : Option (List String)) : ℚ :=
  match tweets, sources with
  | some ts, some ss =>
    ((ts.zip ss).countP (fun p => pyIn "http" p.1 && uses_api_func p.2) : ℚ) / ts.length
  | _, _ => 0

/-! ### C6: platform-mode features -/

theorem count_with_negation (b1 b2 b3 b4 b5 : Bool) :
    1 ≤ [b1, b2, b3, b4, b5, !(b1 || b2 || b3 || b4 || b5)].count true ∧
    ([b1, b2, b3, b4, b5, !(b1 || b2 || b3 || b4 || b5)].count true = 1 ↔
     [b1, b2, b3, b4, b5].count true ≤ 1) := by
  cases b1 <;> cases b2 <;> cases b3 <;> cases b4 <;> cases b5 <;> decide

/-- C6 (amended): each platform feature is an INDEPENDENT case-insensitive
substring test against the account's most frequent source string (first
maximum under the stable tie-break); `uses_other` is true exactly when none
of the five platform keywords match.  Hence AT LEAST one of the six features
is true, and EXACTLY one is true iff the most frequent source matches at
most one of the five keywords — there is no priority order, and a source
string mentioning two platforms makes two features true simultaneously. -/
theorem c6_platform_independent (ss : List String) (_hss : ss ≠ []) :
    uses_iphone (some ss) = uses_iphone_func (maxByCount ss) ∧
    uses_android (some ss) = uses_android_func (maxByCount ss) ∧
    uses_instagram (some ss) = uses_instagram_func (maxByCount ss) ∧
    uses_foursquare (some ss) = uses_foursquare_func (maxByCount ss) ∧
    uses_twitter (some ss) = uses_twitter_func (maxByCount ss) ∧
    uses_other (some ss) = (!(uses_iphone_func (maxByCount ss) ||
      uses_android_func (maxByCount ss) || uses_instagram_func (maxByCount ss) ||
      uses_foursquare_func (maxByCount ss) || uses_twitter_func (maxByCount ss))) ∧
    1 ≤ [uses_iphone (some ss), uses_android (some ss), uses_instagram (some ss),
         uses_foursquare (some ss), uses_twitter (some ss),
         uses_other (some ss)].count true ∧
    ([uses_iphone (some ss), uses_android (some ss), uses_instagram (some ss),
      uses_foursquare (some ss), uses_twitter (some ss),
      uses_other (some ss)].count true = 1 ↔
     [uses_iphone_func (maxByCount ss), uses_android_func (maxByCount ss),
      uses_instagram_func (maxByCount ss), uses_foursquare_func (maxByCount ss),
      uses_twitter_func (maxByCount ss)].count true ≤ 1) := by
  have hc := count_with_negation (uses_iphone_func (maxByCount ss))
    (uses_android_func (maxByCount ss)) (uses_instagram_func (maxByCount ss))
    (uses_foursquare_func (maxByCount ss)) (uses_twitter_func (maxByCount ss))
  exact ⟨rfl, rfl, rfl, rfl, rfl, rfl, hc.1, hc.2⟩

/-- C6 witness: for the realistic source list `["Twitter for iPhone"]` the
mode is classified and exactly-one-true holds (the mode matches only the
`iphone` keyword). -/
theorem c6_witness :
    1 ≤ [uses_iphone (some ["Twitter for iPhone"]),
         uses_android (some ["Twitter for iPhone"]),
         uses_instagram (some ["Twitter for iPhone"]),
         uses_foursquare (some ["Twitter for iPhone"]),
         uses_twitter (some ["Twitter for iPhone"]),
         uses_other (some ["Twitter for iPhone"])].count true ∧
    ([uses_iphone (some ["Twitter for iPhone"]),
      uses_android (some ["Twitter for iPhone"]),
      uses_instagram (some ["Twitter for iPhone"]),
      uses_foursquare (some ["Twitter for iPhone"]),
      uses_twitter (some ["Twitter for iPhone"]),
      uses_other (some ["Twitter for iPhone"])].count true = 1 ↔
     [uses_iphone_func (maxByCount ["Twitter for iPhone"]),
      uses_android_func (maxByCount ["Twitter for iPhone"]),
      uses_instagram_func (maxByCount ["Twitter for iPhone"]),
      uses_foursquare_func (maxByCount ["Twitter for iPhone"]),
      uses_twitter_func (maxByCount ["Twitter for iPhone"])].count true ≤ 1) := by
  have h := c6_platform_independent ["Twitter for iPhone"] (by decide)
  exact ⟨h.2.2.2.2.2.2.1, h.2.2.2.2.2.2.2⟩

/-- C6 counterexample: an account whose only (hence most frequent) source
string is `"iphone android"` makes both `uses_iphone` and `uses_android`
true: two of the six platform features evaluate to `True`, refuting the
claimed classification "into exactly one of" the six classes. -/
theorem c6_counterexample :
    uses_iphone (some ["iphone android"]) = true ∧
    uses_android (some ["iphone android"]) = true ∧
    [uses_iphone (some ["iphone android"]), uses_android (some ["iphone android"]),
     uses_instagram (some ["iphone android"]), uses_foursquare (some ["iphone android"]),
     uses_twitter (some ["iphone android"]),
     uses_other (some ["iphone android"])].count true = 2 := by
  decide

/-! ### tweets_similarity (feature.py lines 420-453) -/

/-- Python's tail slice `l[-n:]`. -/
def lastSlice {α : Type} (n : Nat) (l : List α) : List α := l.drop (l.length - n)

/-- The last at-most-4 elements: the state of the `four_consecutive`
buffer after scanning a word sequence. -/
def win4 (l : List String) : List String := l.drop (l.length - 4)

/-- The inner word loop of `tweets_similarity_func`: `window` is the
`four_consecutive` buffer (append the word; `pop(0)` above length 4),
`cons` the running `consecutives` list.  The joined window is looked up in
`cons` BEFORE the window, once complete, is appended.  Returns the
early-exit flag together with the final `consecutives`. -/
def tweetScan : List String → List String → List String → Bool × List String
  | _, cons, [] => (false, cons)
  | window, cons, word :: rest =>
    let w1 := window ++ [word]
    let w2 := if 4 < w1.length then w1.drop 1 else w1
    let word4 := String.join w2
    if cons.contains word4 then (true, cons)
    else tweetScan w2 (if w2.length = 4 then cons ++ [word4] else cons) rest

/-- The outer `for tweet in last_15` loop (the Python `return True` exits
both loops at once). -/
def tweetsScan : List String → List (List String) → Bool
  | _, [] => false
  | cons, tw :: rest =>
    match tweetScan [] cons tw with
    | (true, _) => true
    | (false, cons') => tweetsScan cons' rest

/-- The stable `sorted(..., key=...)` builtin, modeled as insertion sort
placing each (originally earlier) element before key-equal later ones —
extensionally equal to every stable sort, hence to Python's timsort. -/
def insertByKey {α : Type} (key : α → Nat) (x : α) : List α → List α
  | [] => [x]
  | y :: ys => if key x ≤ key y then x :: y :: ys else y :: insertByKey key x ys

def sortByKey {α : Type} (key : α → Nat) : List α → List α
  | [] => []
  | x :: xs => insertByKey key x (sortByKey key xs)

/-- `tweets_similarity_func(tweets, created)`: `parse` models
`datetime.strptime(·, "%a %b %d %H:%M:%S +0000 %Y")` composed with a
monotone mapping of timestamps to numbers. -/
def tweets_similarity_func (parse : String → Nat)
    (tweets created : Option (List String)) : Bool :=
  match tweets, created with
  | some ts, some cs =>
    tweetsScan []
      ((lastSlice 15 ((sortByKey (fun x => parse x.2) (ts.zip cs)).map
        (fun x => pyLower x.1))).map pySplit)
  | _, _ => false

/-- `api_tweets_similarity`. -/
def api_tweets_similarity (parse : String → Nat)
    (tweets created sources : Option (List String)) : Bool :=
  is_platform_max sources uses_api_func && tweets_similarity_func parse tweets created

/-! ### The claim's specification of tweets_similarity -/

/-- "slide a 4-word window": every 4-word window of a tweet's words,
concatenated with no separator, in sliding order. -/
def fourWindows (w : List String) : List String :=
  (List.range (w.length + 1 - 4)).map (fun i => String.join ((w.drop i).take 4))

/-- Some string occurs at least twice. -/
def hasDup : List String → Bool
  | [] => false
  | x :: xs => xs.contains x || hasDup xs

/-- Spec-modeled from the claim's words: "return True exactly when some
4-word window (its words concatenated with no separator) occurs a second
time across any tweet of that 15-tweet set". -/
def specSimilarOrig (tws : List (List String)) : Bool :=
  hasDup ((tws.map fourWindows).flatten)

/-- The claim's algorithm: the source's preprocessing (stable ascending sort
by parsed timestamp, tail 15, lower-case, whitespace split) followed by the
quoted 4-word-window repetition test. -/
def tweets_similarity_spec (parse : String → Nat)
    (tweets created : Option (List String)) : Bool :=
  match tweets, created with
  | some ts, some cs =>
    specSimilarOrig
      ((lastSlice 15 ((sortByKey (fun x => parse x.2) (ts.zip cs)).map
        (fun x => pyLower x.1))).map pySplit)
  | _, _ => false

/-- Amended window-repetition test: at every word position of every tweet,
the window of the last AT MOST 4 words (so also the 1-, 2- and 3-word
prefixes of a tweet) is compared, by separator-less concatenation, against
all COMPLETED 4-word windows occurring strictly earlier (in an earlier
tweet, or earlier in the same tweet). -/
def specSimilarAmended (tws : List (List String)) : Bool :=
  (List.range tws.length).any fun t =>
    (List.range (tws.getD t []).length).any fun k =>
      (((tws.take t).map fourWindows).flatten
        ++ fourWindows ((tws.getD t []).take k)).contains
        (String.join (win4 ((tws.getD t []).take (k + 1))))

/-- The amended claim's algorithm: preprocessing plus the amended test. -/
def tweets_similarity_amended (parse : String → Nat)
    (tweets created : Option (List String)) : Bool :=
  match tweets, created with
  | some ts, some cs =>
    specSimilarAmended
      ((lastSlice 15 ((sortByKey (fun x => parse x.2) (ts.zip cs)).map
        (fun x => pyLower x.1))).map pySplit)
  | _, _ => false

/-! ### C8: absent-input neutrality -/

/-- C8: every feature consuming a possibly-absent list-valued tweets column
(text, source or created_at) evaluates, on an account whose value for that
column is NaN (e.g. zero tweets), to the neutral `False` or `0` — total
functions in the embedding, so no exception; in particular `uses_hashtag`
is `False` there. -/
theorem c8_nan_neutral (parse : String → Nat) :
    uses_hashtag none = false ∧
    uses_punctuation none = false ∧
    uses_iphone none = false ∧
    uses_android none = false ∧
    uses_instagram none = false ∧
    uses_foursquare none = false ∧
    uses_twitter none = false ∧
    uses_other none = false ∧
    uses_api none = false ∧
    user_id_in_tweets none = false ∧
    urls_in_tweets none = false ∧
    at_least_1_retweets none = false ∧
    same_tweets none = false ∧
    same_tweets_3 none = false ∧
    spam_tweets none = 0 ∧
    retweet_90 none = PyVal.pnum 0 ∧
    urls_90 none = false ∧
    urls_ratio none = 0 ∧
    api_ratio none = 0 ∧
    api_urls_ratio none none = 0 ∧
    api_urls_ratio (some ["x"]) none = 0 ∧
    api_urls_ratio none (some ["x"]) = 0 ∧
    tweets_similarity_func parse none none = false ∧
    tweets_similarity_func parse none (some []) = false ∧
    tweets_similarity_func parse (some []) none = false ∧
    api_tweets_similarity parse none none none = false :=
  ⟨rfl, rfl, rfl, rfl, rfl, rfl, rfl, rfl, rfl, rfl, rfl, rfl, rfl, rfl,
   rfl, rfl, rfl, rfl, rfl, rfl, rfl, rfl, rfl, rfl, rfl, rfl⟩

/-! ### C5: tweets_similarity window lemmas -/

theorem win4_length (l : List String) : (win4 l).length = min l.length 4 := by
  simp only [win4, List.length_drop]
  omega

theorem win4_step (l : List String) (x : String) :
    (if 4 < (win4 l ++ [x]).length then (win4 l ++ [x]).drop 1 else win4 l ++ [x])
      = win4 (l ++ [x]) := by
  have hl : (win4 l).length = min l.length 4 := win4_length l
  by_cases h : l.length ≤ 3
  · rw [if_neg (by simp only [List.length_append, List.length_singleton, hl]; omega)]
    unfold win4
    rw [Nat.sub_eq_zero_of_le (by omega),
      Nat.sub_eq_zero_of_le (by simp only [List.length_append, List.length_singleton]; omega),
      List.drop_zero, List.drop_zero]
  · rw [if_pos (by simp only [List.length_append, List.length_singleton, hl]; omega)]
    unfold win4
    rw [List.drop_append_of_le_length (by simp only [List.length_drop]; omega)]
    rw [List.drop_drop]
    rw [List.drop_append_of_le_length
      (by simp only [List.length_append, List.length_singleton]; omega)]
    have e : l.length - 4 + 1 = (l ++ [x]).length - 4 := by
      simp only [List.length_append, List.length_singleton]
      omega
    rw [e]

theorem fourWindows_snoc (l : List String) (x : String) :
    fourWindows (l ++ [x])
      = fourWindows l ++
        (if (win4 (l ++ [x])).length = 4
         then [String.join (win4 (l ++ [x]))] else []) := by
  have hw : (win4 (l ++ [x])).length = min (l.length + 1) 4 := by
    rw [win4_length]
    simp
  by_cases h3 : 3 ≤ l.length
  · rw [if_pos (by rw [hw]; omega)]
    unfold fourWindows
    have hr : (l ++ [x]).length + 1 - 4 = (l.length + 1 - 4) + 1 := by
      simp only [List.length_append, List.length_singleton]
      omega
    rw [hr, List.range_succ, List.map_append]
    congr 1
    · apply List.map_eq_map_iff.mpr
      intro i hi
      have hi4 : i + 4 ≤ l.length := by
        have := List.mem_range.mp hi
        omega
      congr 1
      rw [List.drop_append_of_le_length (by omega)]
      rw [List.take_append_of_le_length (by simp only [List.length_drop]; omega)]
    · simp only [List.map_cons, List.map_nil]
      congr 2
      unfold win4
      have e1 : (l ++ [x]).length - 4 = l.length + 1 - 4 := by
        simp only [List.length_append, List.length_singleton]
      rw [e1]
      rw [List.take_of_length_le
        (by simp only [List.length_drop, List.length_append, List.length_singleton]; omega)]
  · rw [if_neg (by rw [hw]; omega)]
    unfold fourWindows
    have h1 : (l ++ [x]).length + 1 - 4 = 0 := by
      simp only [List.length_append, List.length_singleton]
      omega
    have h2 : l.length + 1 - 4 = 0 := by omega
    rw [h1, h2]
    simp

/-! ### C5: scan characterization -/

/-- `any` over the index interval `[s, s + n)`. -/
def anyFrom (f : Nat → Bool) : Nat → Nat → Bool
  | _, 0 => false
  | s, n + 1 => f s || anyFrom f (s + 1) n

theorem any_ext {α : Type} (l : List α) (p q : α → Bool) (h : ∀ a, p a = q a) :
    l.any p = l.any q := by
  induction l with
  | nil => rfl
  | cons a t ih => simp only [List.any_cons, h a, ih]

theorem anyFrom_shift (f : Nat → Bool) :
    ∀ (n s : Nat), anyFrom f s n = (List.range n).any (fun i => f (s + i)) := by
  intro n
  induction n with
  | zero => intro s; rfl
  | succ n ih =>
    intro s
    rw [anyFrom, ih (s + 1), List.range_succ_eq_map]
    simp only [List.any_cons, List.any_map, Nat.add_zero]
    congr 1
    refine any_ext _ _ _ (fun i => ?_)
    simp only [Function.comp]
    congr 1
    omega

/-- The check performed at word position `k` of tweet `w`: the last at-most-4
words ending there, joined, looked up among `cons0` plus the 4-word windows
completed strictly earlier in `w`. -/
def tweetHit (cons0 w : List String) (k : Nat) : Bool :=
  (cons0 ++ fourWindows (w.take k)).contains (String.join (win4 (w.take (k + 1))))

theorem tweetScan_go (cons0 : List String) :
    ∀ (rest pre : List String),
    (tweetScan (win4 pre) (cons0 ++ fourWindows pre) rest).1
        = anyFrom (tweetHit cons0 (pre ++ rest)) pre.length rest.length
    ∧ (anyFrom (tweetHit cons0 (pre ++ rest)) pre.length rest.length = false →
       (tweetScan (win4 pre) (cons0 ++ fourWindows pre) rest).2
         = cons0 ++ fourWindows (pre ++ rest)) := by
  intro rest
  induction rest with
  | nil =>
    intro pre
    refine ⟨rfl, fun _ => ?_⟩
    rw [List.append_nil]
    rfl
  | cons word rest ih =>
    intro pre
    have hw2 := win4_step pre word
    have htake0 : (pre ++ word :: rest).take pre.length = pre :=
      List.take_left pre (word :: rest)
    have htake1 : (pre ++ word :: rest).take (pre.length + 1) = pre ++ [word] := by
      rw [List.take_append]
      rfl
    have hhit : tweetHit cons0 (pre ++ word :: rest) pre.length
        = (cons0 ++ fourWindows pre).contains (String.join (win4 (pre ++ [word]))) := by
      unfold tweetHit
      rw [htake0, htake1]
    have hstep : tweetScan (win4 pre) (cons0 ++ fourWindows pre) (word :: rest)
        = if (cons0 ++ fourWindows pre).contains (String.join (win4 (pre ++ [word])))
          then (true, cons0 ++ fourWindows pre)
          else tweetScan (win4 (pre ++ [word]))
            (if (win4 (pre ++ [word])).length = 4
             then (cons0 ++ fourWindows pre) ++ [String.join (win4 (pre ++ [word]))]
             else cons0 ++ fourWindows pre) rest := by
      simp only [tweetScan]
      rw [hw2]
    simp only [List.length_cons]
    by_cases hcheck :
        (cons0 ++ fourWindows pre).contains (String.join (win4 (pre ++ [word]))) = true
    · constructor
      · rw [hstep, if_pos hcheck, anyFrom, hhit, hcheck]
        rfl
      · intro hfalse
        rw [anyFrom, hhit, hcheck] at hfalse
        simp at hfalse
    · have hcheck' :
          (cons0 ++ fourWindows pre).contains (String.join (win4 (pre ++ [word]))) = false := by
        simpa using hcheck
      have hconsEq : (if (win4 (pre ++ [word])).length = 4
          then (cons0 ++ fourWindows pre) ++ [String.join (win4 (pre ++ [word]))]
          else cons0 ++ fourWindows pre)
        = cons0 ++ fourWindows (pre ++ [word]) := by
        rw [fourWindows_snoc]
        by_cases hlen4 : (win4 (pre ++ [word])).length = 4
        · rw [if_pos hlen4, if_pos hlen4, List.append_assoc]
        · rw [if_neg hlen4, if_neg hlen4, List.append_nil]
      have hiha := ih (pre ++ [word])
      simp only [List.append_assoc, List.singleton_append, List.length_append,
        List.length_singleton] at hiha
      constructor
      · rw [hstep, if_neg hcheck, hconsEq, hiha.1, anyFrom, hhit, hcheck']
        simp
      · intro hfalse
        rw [anyFrom, hhit, hcheck'] at hfalse
        simp only [Bool.false_or] at hfalse
        rw [hstep, if_neg hcheck, hconsEq]
        exact hiha.2 hfalse

/-- The declarative form of the whole scan, relative to an initial
`consecutives` list. -/
def scanSpec (cons0 : List String) (tws : List (List String)) : Bool :=
  (List.range tws.length).any fun t =>
    (List.range ((tws.getD t []).length)).any fun k =>
      (cons0 ++ ((tws.take t).map fourWindows).flatten
        ++ fourWindows ((tws.getD t []).take k)).contains
        (String.join (win4 ((tws.getD t []).take (k + 1))))

theorem scanSpec_cons (cons0 : List String) (tw : List String)
    (rest : List (List String)) :
    scanSpec cons0 (tw :: rest)
      = ((List.range tw.length).any (tweetHit cons0 tw)
         || scanSpec (cons0 ++ fourWindows tw) rest) := by
  unfold scanSpec
  rw [List.length_cons, List.range_succ_eq_map, List.any_cons, List.any_map]
  congr 1
  · refine any_ext _ _ _ (fun k => ?_)
    unfold tweetHit
    simp only [List.getD_cons_zero, List.take_zero, List.map_nil,
      List.flatten_nil, List.append_nil]
  · refine any_ext _ _ _ (fun t => ?_)
    simp only [Function.comp, List.getD_cons_succ, List.take_succ_cons,
      List.map_cons, List.flatten_cons, List.append_assoc]

theorem tweetsScan_spec : ∀ (tws : List (List String)) (cons0 : List String),
    tweetsScan cons0 tws = scanSpec cons0 tws := by
  intro tws
  induction tws with
  | nil => intro cons0; rfl
  | cons tw rest ih =>
    intro cons0
    rw [scanSpec_cons]
    have hgo := tweetScan_go cons0 tw []
    have e1 : win4 ([] : List String) = [] := rfl
    have e2 : fourWindows ([] : List String) = [] := rfl
    rw [e1, e2, List.append_nil, List.nil_append] at hgo
    simp only [List.length_nil] at hgo
    have hAny : anyFrom (tweetHit cons0 tw) 0 tw.length
        = (List.range tw.length).any (tweetHit cons0 tw) := by
      rw [anyFrom_shift]
      exact any_ext _ _ _ (fun i => by rw [Nat.zero_add])
    rcases hscan : tweetScan [] cons0 tw with ⟨b, cons1⟩
    rw [hscan] at hgo
    cases b
    · have hfst : (List.range tw.length).any (tweetHit cons0 tw) = false := by
        rw [← hAny, ← hgo.1]
      have hsnd : cons1 = cons0 ++ fourWindows tw := by
        have := hgo.2 (by rw [← hgo.1])
        simpa using this
      simp only [tweetsScan, hscan, hfst, Bool.false_or]
      rw [hsnd]
      exact ih (cons0 ++ fourWindows tw)
    · have hfst : (List.range tw.length).any (tweetHit cons0 tw) = true := by
        rw [← hAny, ← hgo.1]
      simp only [tweetsScan, hscan, hfst, Bool.true_or]

/-! ### C5: main theorems -/

/-- C5 (amended): `tweets_similarity_func` is computed exactly as the
AMENDED algorithm: most recent 15 tweets by stable ascending sort on the
parsed timestamps, lower-cased, whitespace-split, and flagged true exactly
when the joined window of the last at-most-4 words at some position equals
some strictly-earlier COMPLETED 4-word window's join — i.e. the claim's
4-word-window repetition test extended with the 1-, 2- and 3-word tweet
prefixes as additional probe windows. -/
theorem c5_similarity_algorithm (parse : String → Nat)
    (tweets created : Option (List String)) :
    tweets_similarity_func parse tweets created
      = tweets_similarity_amended parse tweets created := by
  have hbase : ∀ tws : List (List String), tweetsScan [] tws = specSimilarAmended tws := by
    intro tws
    rw [tweetsScan_spec]
    unfold scanSpec specSimilarAmended
    simp only [List.nil_append]
  cases tweets with
  | none => rfl
  | some ts =>
    cases created with
    | none => rfl
    | some cs =>
      exact hbase _

/-- C5 counterexample: with equal timestamps (stable order preserved) the
account has tweets `"ab cd ef gh"` and `"abcd efgh"`.  The code returns
`True` — the 2-word prefix `"abcd" ++ "efgh"` of the second tweet collides
with the stored 4-word window `"ab"++"cd"++"ef"++"gh"` — although no 4-word
window occurs twice (the second tweet has only two words), so the claimed
algorithm returns `False`. -/
theorem c5_counterexample :
    tweets_similarity_func (fun _ => 0)
      (some ["ab cd ef gh", "abcd efgh"]) (some ["t1", "t2"]) = true ∧
    tweets_similarity_spec (fun _ => 0)
      (some ["ab cd ef gh", "abcd efgh"]) (some ["t1", "t2"]) = false := by
  decide
